import Mathlib

/-!
Shallow embedding of the Tombleron/vm repository (a register-based bytecode
virtual machine with an assembler), covering `src/instruction.rs`,
`src/vm.rs` and `src/assembly/mod.rs`.

Conventions of the embedding:
* machine bytes are `Nat` values `< 256`; `u16`/`u32`/`usize` values are `Nat`
  with explicit bounds/`% 2^w` where the Rust code can overflow;
* `i32` register contents are `Int`;
* a Rust panic (out-of-bounds index, division by zero, debug-profile integer
  overflow, `Vec` capacity overflow) is modelled as `none` in `Option`;
* the VM is assumed to run on a 64-bit target (`usize` = `u64`) compiled in
  the default (debug) cargo profile, whose integer overflow checks panic.
-/

/-- The `OperandType` from instruction.rs: `Register | Number`. -/
inductive OperandType where
  | register
  | number
deriving DecidableEq, Repr

/-- The `Opcode` enum from instruction.rs, in source order.  Note: the enum has
no `Jneq` variant; `Igl` is the illegal-instruction sentinel. -/
inductive Opcode where
  | hlt
  | load
  | add
  | sub
  | mul
  | div
  | jmp
  | jmpf
  | jmpb
  | eq
  | neq
  | gt
  | lt
  | gtq
  | ltq
  | jeq
  | alloc
  | inc
  | dec
  | igl
deriving DecidableEq, Repr, Fintype

/-- The `impl From<u8> for Opcode` conversion (instruction.rs): total on bytes, with every
unassigned value (including 16, the gap between `Jeq = 15` and `Alloc = 17`)
mapped to `Igl`. -/
def Opcode.fromByte : Nat → Opcode
  | 0 => .hlt
  | 1 => .load
  | 2 => .add
  | 3 => .sub
  | 4 => .mul
  | 5 => .div
  | 6 => .jmp
  | 7 => .jmpf
  | 8 => .jmpb
  | 9 => .eq
  | 10 => .neq
  | 11 => .gt
  | 12 => .lt
  | 13 => .gtq
  | 14 => .ltq
  | 15 => .jeq
  | 17 => .alloc
  | 18 => .inc
  | 19 => .dec
  | _ => .igl

/-- The `impl From<Opcode> for u8` conversion (instruction.rs).  The `Igl` arm of the source
is `unreachable!()`, modelled as `none`. -/
def Opcode.toByte : Opcode → Option Nat
  | .hlt => some 0
  | .load => some 1
  | .add => some 2
  | .sub => some 3
  | .mul => some 4
  | .div => some 5
  | .jmp => some 6
  | .jmpf => some 7
  | .jmpb => some 8
  | .eq => some 9
  | .neq => some 10
  | .gt => some 11
  | .lt => some 12
  | .gtq => some 13
  | .ltq => some 14
  | .jeq => some 15
  | .alloc => some 17
  | .inc => some 18
  | .dec => some 19
  | .igl => none

/-- The `Opcode::size` (instruction.rs).  The `Igl` arm is `unreachable!()`,
modelled as `none`. -/
def Opcode.size : Opcode → Option Nat
  | .hlt => some 1
  | .load => some 4
  | .add => some 4
  | .sub => some 4
  | .mul => some 4
  | .div => some 4
  | .jmp => some 2
  | .jmpf => some 2
  | .jmpb => some 2
  | .eq => some 3
  | .neq => some 3
  | .gt => some 3
  | .lt => some 3
  | .gtq => some 3
  | .ltq => some 3
  | .jeq => some 2
  | .alloc => some 2
  | .inc => some 2
  | .dec => some 2
  | .igl => none

/-- The `Opcode::operands` (instruction.rs), returning the ordered operand-kind
list of each opcode.  The `Igl` arm is `unreachable!()`, modelled as `none`. -/
def Opcode.operands : Opcode → Option (List OperandType)
  | .hlt => some []
  | .load => some [.register, .number]
  | .add => some [.register, .register, .register]
  | .sub => some [.register, .register, .register]
  | .mul => some [.register, .register, .register]
  | .div => some [.register, .register, .register]
  | .jmp => some [.register]
  | .jmpf => some [.register]
  | .jmpb => some [.register]
  | .eq => some [.register, .register]
  | .neq => some [.register, .register]
  | .gt => some [.register, .register]
  | .lt => some [.register, .register]
  | .gtq => some [.register, .register]
  | .ltq => some [.register, .register]
  | .jeq => some [.register]
  | .alloc => some [.register]
  | .inc => some [.register]
  | .dec => some [.register]
  | .igl => none

/-- Encoded width in bytes of one operand, as fixed by
`assembly::Instruction::to_bytes`: a `Register` operand is pushed as one
byte, a `Number` operand as two bytes (big-endian). -/
def OperandType.width : OperandType → Nat
  | .register => 1
  | .number => 2

/-- The 20 constructors of the `Opcode` enum, in source order. -/
def opcodeEnum : List Opcode :=
  [.hlt, .load, .add, .sub, .mul, .div, .jmp, .jmpf, .jmpb,
   .eq, .neq, .gt, .lt, .gtq, .ltq, .jeq, .alloc, .inc, .dec, .igl]

/-! Section: Machine-integer helpers (Rust semantics) -/

/-- The `i32::MIN` bound. -/
def i32Min : Int := -(2 ^ 31)

/-- The `i32::MAX` bound. -/
def i32Max : Int := 2 ^ 31 - 1

/-- The value `2^64`, one past `usize::MAX` on the assumed 64-bit target. -/
def usizeSize : Nat := 2 ^ 64

/-- The `isize::MAX`, the largest byte capacity a Rust `Vec` accepts before
panicking with a capacity overflow. -/
def isizeMax : Nat := 2 ^ 63 - 1

/-- Debug-profile checked `i32` arithmetic: the result if it fits in `i32`,
otherwise `none` (overflow panic). -/
def i32chk (x : Int) : Option Int :=
  if i32Min ≤ x ∧ x ≤ i32Max then some x else none

/-- Rust `i32 as usize` on a 64-bit target: sign-extend to 64 bits and
reinterpret as unsigned. -/
def i32AsUsize (x : Int) : Nat := (x % (2 ^ 64)).toNat

/-- Rust `i32 as u32`: reinterpret the two's-complement bit pattern. -/
def i32AsU32 (x : Int) : Nat := (x % (2 ^ 32)).toNat

/-- Debug-profile checked `usize` multiplication. -/
def usizeMul (a b : Nat) : Option Nat :=
  if a * b < usizeSize then some (a * b) else none

/-- Debug-profile checked `usize` addition. -/
def usizeAdd (a b : Nat) : Option Nat :=
  if a + b < usizeSize then some (a + b) else none

/-- Debug-profile checked `usize` subtraction: `none` on underflow. -/
def usizeSub (a b : Nat) : Option Nat :=
  if b ≤ a then some (a - b) else none

/-- Rust `i32` division `a / b`: truncated toward zero; panics (in every
profile) when `b = 0` or on the `i32::MIN / -1` overflow. -/
def i32div (a b : Int) : Option Int :=
  if b = 0 ∨ (a = i32Min ∧ b = -1) then none else some (a.tdiv b)

/-- Rust `i32` remainder `a % b`: sign of the dividend; same panic
conditions as division. -/
def i32mod (a b : Int) : Option Int :=
  if b = 0 ∨ (a = i32Min ∧ b = -1) then none else some (a.tmod b)

/-- The `Vec::<u8>::resize(n, 0)`: truncate when shrinking, append zero bytes
when growing; growing past `isize::MAX` bytes panics (capacity overflow). -/
def vecResize (l : List Nat) (n : Nat) : Option (List Nat) :=
  if n ≤ l.length then some (l.take n)
  else if n ≤ isizeMax then some (l ++ List.replicate (n - l.length) 0)
  else none

/-! Section: The VM (vm.rs) -/

/-- The `Vm` struct of vm.rs: 32 `i32` registers, a byte program counter,
program and heap byte buffers, the `rem` (`u32`) and `cmp` (`u32`)
scratch registers. -/
structure Vm where
  registers : List Int
  pc : Nat
  program : List Nat
  heap : List Nat
  rem : Nat
  cmp : Nat
deriving DecidableEq, Repr

/-- The `Vm::new()` constructor. -/
def Vm.new : Vm :=
  { registers := List.replicate 32 0
    pc := 0
    program := []
    heap := []
    rem := 0
    cmp := 0 }

/-- Read `self.registers[i]` (`none` = index-out-of-bounds panic). -/
def Vm.readReg (vm : Vm) (i : Nat) : Option Int := vm.registers.get? i

/-- Write `self.registers[i] = v` (`none` = index-out-of-bounds panic). -/
def Vm.writeReg (vm : Vm) (i : Nat) (v : Int) : Option Vm :=
  if i < vm.registers.length then
    some { vm with registers := vm.registers.set i v }
  else none

/-- The `Vm::next_8_bits`: read `program[pc]` and advance `pc` by 1
(`none` = index-out-of-bounds panic). -/
def Vm.next8 (vm : Vm) : Option (Nat × Vm) :=
  (vm.program.get? vm.pc).map fun b => (b, { vm with pc := vm.pc + 1 })

/-- The `Vm::next_16_bits`: big-endian 16-bit read of `program[pc]`,
`program[pc+1]`, advancing `pc` by 2 (`none` = out-of-bounds panic). -/
def Vm.next16 (vm : Vm) : Option (Nat × Vm) :=
  match vm.program.get? vm.pc, vm.program.get? (vm.pc + 1) with
  | some b1, some b2 => some (b1 * 256 + b2, { vm with pc := vm.pc + 2 })
  | _, _ => none

/-- The `Opcode::Load` arm of `Vm::execute_instruction`: read a register
index byte and a big-endian 16-bit immediate, then store the immediate —
`self.next_16_bits() as i32`, a zero-extension of `u16` — into the
register. -/
def Vm.stepLoad (vm : Vm) : Option (Bool × Vm) := do
  let (r, vm) ← vm.next8
  let (n, vm) ← vm.next16
  let vm ← vm.writeReg r (n : Int)
  some (false, vm)

/-- The `Add`/`Sub`/`Mul` arms of `Vm::execute_instruction`, parameterised
by the `i32` operation: read two source registers, then store
`f reg1 reg2` (checked, debug profile) through a third register-index
byte. -/
def Vm.stepBin (f : Int → Int → Int) (vm : Vm) : Option (Bool × Vm) := do
  let (i, vm) ← vm.next8
  let a ← vm.readReg i
  let (j, vm) ← vm.next8
  let b ← vm.readReg j
  let s ← i32chk (f a b)
  let (k, vm) ← vm.next8
  let vm ← vm.writeReg k s
  some (false, vm)

/-- The `Opcode::Div` arm: quotient into the destination register, then
`self.rem = (register1 % register2) as u32`. -/
def Vm.stepDiv (vm : Vm) : Option (Bool × Vm) := do
  let (i, vm) ← vm.next8
  let a ← vm.readReg i
  let (j, vm) ← vm.next8
  let b ← vm.readReg j
  let q ← i32div a b
  let (k, vm) ← vm.next8
  let vm ← vm.writeReg k q
  let r ← i32mod a b
  some (false, { vm with rem := i32AsU32 r })

/-- The `Opcode::Jmp` arm: read the target register, consume a 16-bit
padding read, then `self.pc = target as usize * 4`. -/
def Vm.stepJmp (vm : Vm) : Option (Bool × Vm) := do
  let (i, vm) ← vm.next8
  let t ← vm.readReg i
  let (_, vm) ← vm.next16
  let p ← usizeMul (i32AsUsize t) 4
  some (false, { vm with pc := p })

/-- The `Opcode::Jmpb` arm: `self.pc -= target as usize * 4`. -/
def Vm.stepJmpb (vm : Vm) : Option (Bool × Vm) := do
  let (i, vm) ← vm.next8
  let t ← vm.readReg i
  let (_, vm) ← vm.next16
  let d ← usizeMul (i32AsUsize t) 4
  let p ← usizeSub vm.pc d
  some (false, { vm with pc := p })

/-- The `Opcode::Jmpf` arm: `self.pc += target as usize * 4`. -/
def Vm.stepJmpf (vm : Vm) : Option (Bool × Vm) := do
  let (i, vm) ← vm.next8
  let t ← vm.readReg i
  let (_, vm) ← vm.next16
  let d ← usizeMul (i32AsUsize t) 4
  let p ← usizeAdd vm.pc d
  some (false, { vm with pc := p })

/-- The `Eq`/`Neq`/`Gt`/`Lt`/`Gtq`/`Ltq` arms of
`Vm::execute_instruction`, parameterised by the signed comparison: read
two registers, set `self.cmp = (rel r1 r2) as u32`, then a trailing
`next_8_bits` padding read. -/
def Vm.stepCmp (rel : Int → Int → Bool) (vm : Vm) : Option (Bool × Vm) := do
  let (i, vm) ← vm.next8
  let a ← vm.readReg i
  let (j, vm) ← vm.next8
  let b ← vm.readReg j
  let vm := { vm with cmp := if rel a b then 1 else 0 }
  let (_, vm) ← vm.next8
  some (false, vm)

/-- The `Opcode::Jeq` arm: read the target register and a 16-bit padding
read; when `self.cmp == 1`, `self.pc = target as usize * 4`. -/
def Vm.stepJeq (vm : Vm) : Option (Bool × Vm) := do
  let (i, vm) ← vm.next8
  let t ← vm.readReg i
  let (_, vm) ← vm.next16
  if vm.cmp = 1 then
    let p ← usizeMul (i32AsUsize t) 4
    some (false, { vm with pc := p })
  else
    some (false, vm)

/-- The `Opcode::Alloc` arm: read the size register, grow the heap to
`heap.len() + size as usize` zero-filled (`Vec::resize`), then two
trailing `next_8_bits` padding reads. -/
def Vm.stepAlloc (vm : Vm) : Option (Bool × Vm) := do
  let (i, vm) ← vm.next8
  let t ← vm.readReg i
  let n ← usizeAdd vm.heap.length (i32AsUsize t)
  let h ← vecResize vm.heap n
  let vm := { vm with heap := h }
  let (_, vm) ← vm.next8
  let (_, vm) ← vm.next8
  some (false, vm)

/-- The `Inc`/`Dec` arms, parameterised by the update: read a register
index byte, apply `registers[r] ± 1` (checked, debug profile), then two
trailing `next_8_bits` padding reads. -/
def Vm.stepDelta (f : Int → Int) (vm : Vm) : Option (Bool × Vm) := do
  let (i, vm) ← vm.next8
  let a ← vm.readReg i
  let s ← i32chk (f a)
  let vm ← vm.writeReg i s
  let (_, vm) ← vm.next8
  let (_, vm) ← vm.next8
  some (false, vm)

/-- One call of `Vm::execute_instruction` (vm.rs).
`some (true, vm')` models `return true` (halt), `some (false, vm')` models
falling through to `false` (continue), `none` models a Rust panic.
The source first tests `pc >= program.len()` and returns `true`; since
that test succeeds exactly when `program.get? pc` is `none`, the two are
fused into one match.  `decode_opcode` reads the byte at `pc` and advances
`pc` by 1 before dispatch; the per-opcode arms are the `Vm.step…`
definitions above. -/
def Vm.step (vm : Vm) : Option (Bool × Vm) :=
  match vm.program.get? vm.pc with
  | none => some (true, vm)
  | some b =>
    let vm := { vm with pc := vm.pc + 1 }
    match Opcode.fromByte b with
    | .hlt => some (true, vm)
    | .load => vm.stepLoad
    | .add => vm.stepBin (fun a b => a + b)
    | .sub => vm.stepBin (fun a b => a - b)
    | .mul => vm.stepBin (fun a b => a * b)
    | .div => vm.stepDiv
    | .jmp => vm.stepJmp
    | .jmpb => vm.stepJmpb
    | .jmpf => vm.stepJmpf
    | .eq => vm.stepCmp (fun a b => decide (a = b))
    | .neq => vm.stepCmp (fun a b => decide (a ≠ b))
    | .gt => vm.stepCmp (fun a b => decide (a > b))
    | .lt => vm.stepCmp (fun a b => decide (a < b))
    | .gtq => vm.stepCmp (fun a b => decide (a ≥ b))
    | .ltq => vm.stepCmp (fun a b => decide (a ≤ b))
    | .jeq => vm.stepJeq
    | .alloc => vm.stepAlloc
    | .inc => vm.stepDelta (fun a => a + 1)
    | .dec => vm.stepDelta (fun a => a - 1)
    | .igl => some (true, vm)

/-- Number of program bytes consumed by the `decode_opcode` /
`next_8_bits` / `next_16_bits` calls in each arm of
`Vm::execute_instruction`, before any jump arm overwrites `pc`:
`Hlt` and `Igl` consume only the opcode byte; `Load` consumes 1+1+2;
the three-register arithmetic arms consume 1+1+1+1; the jump arms consume
1+1+2 (the `next_16_bits` padding read); the comparison arms consume
1+1+1+1 (a trailing `next_8_bits`); `Alloc`/`Inc`/`Dec` consume 1+1+1+1
(two trailing `next_8_bits`). -/
def Opcode.vmConsumed : Opcode → Nat
  | .hlt => 1
  | .igl => 1
  | _ => 4

/-! Section: The assembler (assembly/mod.rs)

The nom-based parsers are modelled over `List Char` (the characters of the
`&str` input); each parser returns `none` for a nom error and otherwise the
parsed value together with the remaining input. -/

/-- The uppercase opcode identifiers that `assembly/mod.rs::parse_opcode`
uses in its `alt` chain, in source order.  Note that `instruction.rs`
spells its variants `Hlt`, `Load`, … and has no `JNEQ` variant at all, so
the `value(Opcode::JNEQ, tag("JNEQ"))` arm of the source names an undefined
constructor; this standalone enumeration keeps that arm representable. -/
inductive AsmOpcode where
  | HLT
  | LOAD
  | ADD
  | SUB
  | MUL
  | DIV
  | JMP
  | JMPF
  | JMPB
  | EQ
  | NEQ
  | GT
  | LT
  | GTQ
  | LTQ
  | JEQ
  | JNEQ
deriving DecidableEq, Repr

/-- Correspondence between the identifiers used by `assembly/mod.rs`
(`Opcode::HLT`, …) and the variants of the `Opcode` enum in
`instruction.rs` (`Hlt`, …).  `JNEQ` has no counterpart (`none`): the
source line `value(Opcode::JNEQ, tag("JNEQ"))` does not compile against
`instruction.rs`. -/
def AsmOpcode.toOpcode : AsmOpcode → Option Opcode
  | .HLT => some .hlt
  | .LOAD => some .load
  | .ADD => some .add
  | .SUB => some .sub
  | .MUL => some .mul
  | .DIV => some .div
  | .JMP => some .jmp
  | .JMPF => some .jmpf
  | .JMPB => some .jmpb
  | .EQ => some .eq
  | .NEQ => some .neq
  | .GT => some .gt
  | .LT => some .lt
  | .GTQ => some .gtq
  | .LTQ => some .ltq
  | .JEQ => some .jeq
  | .JNEQ => none

/-- Modelled from the spec: `instruction.rs` has no `JNEQ` variant, so the
operand list that `parse_instruction`'s `opcode.operands()` call would
need for `AsmOpcode.JNEQ` exists nowhere in `src/`.  Spec §4.3 defines
`JNEQ reg` with a single register operand. -/
def jneqOperands : List OperandType := [.register]

/-- The operand list `opcode.operands().operands` consulted by
`parse_instruction`: `Opcode::operands` of the corresponding
`instruction.rs` variant, and `jneqOperands` for the non-compiling `JNEQ`
arm. -/
def AsmOpcode.operandList (op : AsmOpcode) : List OperandType :=
  match op.toOpcode with
  | some o => o.operands.getD jneqOperands
  | none => jneqOperands

/-- nom `tag(t)`: succeed exactly when `t` is a prefix of the input,
returning the input with that prefix removed. -/
def pTag (t : List Char) (s : List Char) : Option (List Char) :=
  if t.isPrefixOf s then some (s.drop t.length) else none

/-- nom `space1` character class: space or tab. -/
def isSpaceTab (c : Char) : Bool := c = ' ' || c = '\t'

/-- nom `multispace0` character class: space, tab, carriage return, newline. -/
def isMultispace (c : Char) : Bool := c = ' ' || c = '\t' || c = '\r' || c = '\n'

/-- nom `space1`: at least one space/tab, consumed maximally. -/
def pSpace1 (s : List Char) : Option (List Char) :=
  match s with
  | c :: rest => if isSpaceTab c then some (rest.dropWhile isSpaceTab) else none
  | [] => none

/-- nom `multispace0`: zero or more whitespace characters. -/
def pMultispace0 (s : List Char) : Option (List Char) :=
  some (s.dropWhile isMultispace)

/-- Decimal value of a digit run. -/
def digitsVal (ds : List Char) : Nat :=
  ds.foldl (fun acc c => acc * 10 + (c.toNat - 48)) 0

/-- nom `character::complete::u8`: a nonempty run of ASCII digits whose
decimal value fits in `u8`; overflow is a parse error. -/
def pU8 (s : List Char) : Option (Nat × List Char) :=
  let ds := s.takeWhile Char.isDigit
  if ds.isEmpty then none
  else if digitsVal ds < 256 then some (digitsVal ds, s.dropWhile Char.isDigit)
  else none

/-- The `Token` from assembly/mod.rs (the `Op` variant is never produced by the
operand parsers and is omitted). -/
inductive Token where
  | register (reg : Nat)
  | number (num : Int)
deriving DecidableEq, Repr

/-- nom `alt`: try each `(tag, value)` row in order, returning the first
row whose tag is a prefix of the input. -/
def altFirst : List (List Char × AsmOpcode) → List Char → Option (AsmOpcode × List Char)
  | [], _ => none
  | (t, op) :: rest, s =>
    match pTag t s with
    | some r => some (op, r)
    | none => altFirst rest s

/-- The `parse_opcode` (assembly/mod.rs): nom `alt` over the 17
`value(Opcode::…, tag("…"))` rows in source order; the first tag that is a
prefix of the input wins.  In particular `JMP` shadows `JMPF`/`JMPB`, `GT`
shadows `GTQ` and `LT` shadows `LTQ`, and there are no rows at all for
`ALLOC`, `INC` or `DEC`. -/
def parse_opcode (s : List Char) : Option (AsmOpcode × List Char) :=
  altFirst
    [("HLT".data, .HLT), ("LOAD".data, .LOAD), ("ADD".data, .ADD),
     ("SUB".data, .SUB), ("MUL".data, .MUL), ("DIV".data, .DIV),
     ("JMP".data, .JMP), ("JMPF".data, .JMPF), ("JMPB".data, .JMPB),
     ("EQ".data, .EQ), ("NEQ".data, .NEQ), ("GT".data, .GT),
     ("LT".data, .LT), ("GTQ".data, .GTQ), ("LTQ".data, .LTQ),
     ("JEQ".data, .JEQ), ("JNEQ".data, .JNEQ)] s

/-- The `parse_register` (assembly/mod.rs): the literal `$` followed by a
decimal `u8`. -/
def parse_register (s : List Char) : Option (Token × List Char) := do
  let r ← pTag "$".data s
  let (v, r) ← pU8 r
  some (Token.register v, r)

/-- The `parse_number` (assembly/mod.rs): nom `alphanumeric1` followed by
Rust `str::parse::<i32>`, which fails when the run contains a letter or
the decimal value exceeds `i32::MAX` (no sign is ever consumed since
`alphanumeric1` only takes ASCII alphanumerics). -/
def parse_number (s : List Char) : Option (Token × List Char) :=
  let tk := s.takeWhile Char.isAlphanum
  if tk.isEmpty then none
  else if tk.all Char.isDigit ∧ digitsVal tk ≤ 2 ^ 31 - 1 then
    some (Token.number (digitsVal tk), s.dropWhile Char.isAlphanum)
  else none

/-- The operand loop of `parse_instruction`: for each operand kind of the
resolved opcode, gobble whitespace (`multispace0`) and parse a register or
number token. -/
def parseOperands : List OperandType → List Char → Option (List Token × List Char)
  | [], r => some ([], r)
  | k :: ks, r => do
    let r ← pMultispace0 r
    let (tok, r) ←
      match k with
      | .register => parse_register r
      | .number => parse_number r
    let (toks, r) ← parseOperands ks r
    some (tok :: toks, r)

/-- The `parse_instruction` (assembly/mod.rs): resolve the opcode, require at
least one space/tab (`space1`), then parse the operands dictated by the
opcode's operand list.  Returns the parsed instruction and the unconsumed
rest of the line. -/
def parse_instruction (s : List Char) :
    Option ((AsmOpcode × List Token) × List Char) := do
  let (op, r) ← parse_opcode s
  let r ← pSpace1 r
  let (toks, r) ← parseOperands op.operandList r
  some ((op, toks), r)

/-! Section: Concrete example states -/

/-- A register file of 32 zeroed registers with register 0 set to `v`. -/
def regs0 (v : Int) : List Int := (List.replicate 32 0).set 0 v

/-- The `JMP $0` with `registers[0] = 1`. -/
def jmpEx : Vm := { Vm.new with program := [6, 0, 0, 0], registers := regs0 1 }

/-- The `JMPF $0` with all registers zero. -/
def jmpfEx : Vm := { Vm.new with program := [7, 0, 0, 0] }

/-- The `LOAD $0` with immediate bytes `0xFF 0xFF`. -/
def loadFFEx : Vm := { Vm.new with program := [1, 0, 255, 255] }

/-- The `DIV $0 $1 $2` with all registers zero: the divisor register holds 0. -/
def divZeroEx : Vm := { Vm.new with program := [5, 0, 1, 2] }

/-- The `DIV $0 $1 $2` with `registers[0] = 11`, `registers[1] = 2`. -/
def divEx : Vm :=
  { Vm.new with program := [5, 0, 1, 2],
                registers := ((List.replicate 32 0).set 0 11).set 1 2 }

/-- Probe state for a JNEQ-like opcode: comparison flag 0,
`registers[0] = 2`, program `[b, 0, 0, 0]`. -/
def jneqProbe (b : Nat) : Vm :=
  { Vm.new with program := [b, 0, 0, 0], registers := regs0 2 }

/-- The `JEQ $0` with `registers[0] = 3` and comparison flag 1. -/
def jeqEx : Vm :=
  { Vm.new with program := [15, 0, 0, 0], registers := regs0 3, cmp := 1 }

/-- The `ALLOC $0` with `registers[0] = -1`. -/
def allocNegEx : Vm :=
  { Vm.new with program := [17, 0, 0, 0], registers := regs0 (-1) }

/-- The `ALLOC $0` with `registers[0] = 10`. -/
def allocEx : Vm :=
  { Vm.new with program := [17, 0, 0, 0], registers := regs0 10 }

/-- A program starting with the unassigned opcode byte 255. -/
def iglEx : Vm := { Vm.new with program := [255, 0, 0, 0] }

/-! Section: Helper lemmas -/

theorem i32AsUsize_ofNonneg (t : Int) (h0 : 0 ≤ t) (h1 : t < 2 ^ 31) :
    i32AsUsize t = t.toNat := by
  unfold i32AsUsize
  omega

theorem usizeMul4_small (n : Nat) (h : n < 2 ^ 62) :
    usizeMul n 4 = some (n * 4) := by
  unfold usizeMul usizeSize
  rw [if_pos (by omega)]

theorem usizeAdd_small (a b : Nat) (h : a + b < 2 ^ 64) :
    usizeAdd a b = some (a + b) := by
  unfold usizeAdd usizeSize
  rw [if_pos h]

theorem usizeSub_of_le (a b : Nat) (h : b ≤ a) :
    usizeSub a b = some (a - b) := by
  unfold usizeSub
  rw [if_pos h]

set_option maxRecDepth 4000 in
theorem fromByte_toByte_inverse :
    ∀ b : Fin 256, Opcode.fromByte b.val = Opcode.igl ∨
      Opcode.toByte (Opcode.fromByte b.val) = some b.val := by decide

/-! Section: Claim theorems -/

/-- C7 (confirmed): for every valid opcode (everything except the `Igl`
sentinel), `Opcode::size` equals 1 (opcode byte) plus the sum of the
encoded widths of its operand kinds, where a `Register` operand is 1 byte
and a `Number` operand is 2 bytes. -/
theorem c7_size_eq_one_plus_operand_widths (op : Opcode) (h : op ≠ Opcode.igl) :
    op.size = some (1 + ((op.operands.getD []).map OperandType.width).sum) := by
  cases op <;> first | rfl | exact absurd rfl h

/-- Witness for C7 at `Opcode.load`. -/
theorem c7_witness :
    Opcode.load ≠ Opcode.igl ∧
    Opcode.size Opcode.load =
      some (1 + (((Opcode.operands Opcode.load).getD []).map OperandType.width).sum) :=
  ⟨by decide, c7_size_eq_one_plus_operand_widths Opcode.load (by decide)⟩

/-- C8 (confirmed): when the byte at `pc` decodes to the `Igl` sentinel,
a single step halts with `pc` advanced by exactly 1 and registers, heap,
remainder and comparison flag unchanged. -/
theorem c8_illegal_halts (vm : Vm) (b : Nat)
    (hb : vm.program[vm.pc]? = some b)
    (hi : Opcode.fromByte b = Opcode.igl) :
    Vm.step vm = some (true, { vm with pc := vm.pc + 1 }) := by
  simp [Vm.step, hb, hi]

/-- Witness for C8: byte 255 at `pc = 0`. -/
theorem c8_witness :
    Vm.step iglEx = some (true, { iglEx with pc := iglEx.pc + 1 }) :=
  c8_illegal_halts iglEx 255 rfl rfl

/-- C10 (confirmed): byte encoding and decoding of opcodes round-trip for
every opcode other than the `Igl` sentinel, and every byte value without
an assigned opcode decodes to `Igl`. -/
theorem c10_roundtrip (op : Opcode) (b : Fin 256)
    (hop : op ≠ Opcode.igl)
    (hb : ∀ o : Opcode, Opcode.toByte o ≠ some b.val) :
    op.toByte.map Opcode.fromByte = some op ∧
    Opcode.fromByte b.val = Opcode.igl := by
  constructor
  · cases op <;> first | rfl | exact absurd rfl hop
  · rcases fromByte_toByte_inverse b with h | h
    · exact h
    · exact absurd h (hb _)

/-- Witness for C10 at `Opcode.load` and the unassigned gap byte 16. -/
theorem c10_witness :
    (Opcode.toByte Opcode.load).map Opcode.fromByte = some Opcode.load ∧
    Opcode.fromByte (16 : Fin 256).val = Opcode.igl :=
  c10_roundtrip Opcode.load 16 (by decide) (by decide)

/-- C1 counterexample: executing `JMP $0` with `registers[0] = 1` sets
`pc` to 4 (the register value times the fixed instruction width 4), not to
the absolute byte offset 1 claimed. -/
theorem c1_counterexample :
    Vm.step jmpEx = some (false, { jmpEx with pc := 4 }) ∧
    Vm.step jmpEx ≠ some (false, { jmpEx with pc := 1 }) := by
  exact ⟨by decide, by decide⟩

/-- C2 counterexample: `JMPF` has `encoded_size` 2 but the engine consumes
4 bytes (opcode, register byte, and a 16-bit padding read): stepping
`JMPF $0` with a zero register file advances `pc` from 0 to 4 with no
retargeting. -/
theorem c2_counterexample :
    Opcode.vmConsumed Opcode.jmpf = 4 ∧
    Opcode.size Opcode.jmpf = some 2 ∧
    Vm.step jmpfEx = some (false, { jmpfEx with pc := 4 }) := by
  exact ⟨rfl, rfl, by decide⟩

/-- C3 counterexample: `LOAD $0` with immediate bytes `0xFF 0xFF` stores
65535 (zero-extension), not the sign-extended value -1. -/
theorem c3_counterexample :
    Vm.step loadFFEx = some (false,
      { loadFFEx with
          pc := 4
          registers := (List.replicate 32 (0 : Int)).set 0 65535 }) ∧
    (65535 : Int) ≠ -1 := by
  exact ⟨by decide, by decide⟩

set_option maxRecDepth 100000 in
/-- C4 counterexample: no opcode byte implements the claimed JNEQ
semantics.  With comparison flag 0 and `registers[0] = 2`, a JNEQ at `pc=0`
would set `pc` to `value($0) = 2`; a single step of `[b, 0, 0, 0]` never
yields `pc = 2` for any byte `b`. -/
theorem c4_counterexample :
    ((List.range 256).all fun b =>
      match Vm.step (jneqProbe b) with
      | some (_, v) => v.pc != 2
      | none => true) = true := by decide

/-- C5 counterexample: executing `DIV` with a zero divisor is a native
Rust panic (modelled `none`), not a structured fault value that halts the
machine. -/
theorem c5_counterexample : Vm.step divZeroEx = none := by decide

/-- C9 counterexample: executing `ALLOC $0` with `registers[0] = -1` is a
native Rust panic (`-1 as usize` is 2^64 - 1 and `Vec::resize` to that
length overflows the `Vec` capacity), not a defined HeapGrowthOverflow
fault. -/
theorem c9_counterexample : Vm.step allocNegEx = none := by decide

/-- C6 (code bug): lines using the valid mnemonics JMPF, JMPB, GTQ, LTQ
fail to parse because nom `alt` commits to the prefix tags JMP/GT/LT first
(their own table rows are unreachable), and ALLOC, INC, DEC have no table
row at all; a well-formed ADD line parses, showing the operand loop
itself works. -/
theorem c6_mnemonic_table_failures :
    parse_instruction "JMPF $1".data = none ∧
    parse_instruction "JMPB $1".data = none ∧
    parse_instruction "GTQ $0 $1".data = none ∧
    parse_instruction "LTQ $0 $1".data = none ∧
    parse_instruction "ALLOC $0".data = none ∧
    parse_instruction "INC $0".data = none ∧
    parse_instruction "DEC $0".data = none ∧
    parse_opcode "JMPF $1".data = some (AsmOpcode.JMP, "F $1".data) ∧
    parse_instruction "ADD $0 $1 $2".data =
      some ((AsmOpcode.ADD,
        [Token.register 0, Token.register 1, Token.register 2]), []) := by
  refine ⟨?_, ?_, ?_, ?_, ?_, ?_, ?_, ?_, ?_⟩ <;> decide

/-- C1 amended: with `0 ≤ t < 2^31` in the jump register, and the four
instruction bytes present, `JMP` (opcode 6) sets `pc := t * 4`, `JMPF`
(opcode 7) sets `pc := (pc + 4) + t * 4` and `JMPB` (opcode 8) sets
`pc := (pc + 4) - t * 4`: the register value is an instruction index
scaled by the fixed 4-byte width (applied after the arm consumes the
register byte and a 16-bit padding read), not a raw byte offset. -/
theorem c1_jump_semantics (vm : Vm) (c r b2 b3 : Nat) (t : Int)
    (hc : c = 6 ∨ c = 7 ∨ c = 8)
    (h0 : vm.program[vm.pc]? = some c)
    (h1 : vm.program[vm.pc + 1]? = some r)
    (h2 : vm.program[vm.pc + 2]? = some b2)
    (h3 : vm.program[vm.pc + 3]? = some b3)
    (hr : vm.registers[r]? = some t)
    (ht0 : 0 ≤ t) (ht1 : t < 2 ^ 31)
    (hof : vm.pc + 4 + t.toNat * 4 < 2 ^ 64)
    (hub : c = 8 → t.toNat * 4 ≤ vm.pc + 4) :
    Vm.step vm = some (false,
      { vm with pc :=
          if c = 6 then t.toNat * 4
          else if c = 7 then vm.pc + 4 + t.toNat * 4
          else vm.pc + 4 - t.toNat * 4 }) := by
  have h2' : vm.program[vm.pc + 1 + 1]? = some b2 := by
    rw [show vm.pc + 1 + 1 = vm.pc + 2 by omega]; exact h2
  have h3' : vm.program[vm.pc + 1 + 1 + 1]? = some b3 := by
    rw [show vm.pc + 1 + 1 + 1 = vm.pc + 3 by omega]; exact h3
  have hm : usizeMul (i32AsUsize t) 4 = some (t.toNat * 4) := by
    rw [i32AsUsize_ofNonneg t ht0 ht1]
    exact usizeMul4_small _ (by omega)
  have e4 : vm.pc + 1 + 1 + 2 = vm.pc + 4 := by omega
  rcases hc with rfl | rfl | rfl
  · simp [Vm.step, h0, Vm.stepJmp, Vm.next8, Vm.next16, Vm.readReg,
          h1, h2', h3', hr, hm, show Opcode.fromByte 6 = Opcode.jmp from rfl]
  · have ha : usizeAdd (vm.pc + 4) (t.toNat * 4) = some (vm.pc + 4 + t.toNat * 4) :=
      usizeAdd_small _ _ hof
    simp [Vm.step, h0, Vm.stepJmpf, Vm.next8, Vm.next16, Vm.readReg,
          h1, h2', h3', hr, hm, e4, ha, show Opcode.fromByte 7 = Opcode.jmpf from rfl]
  · have hs : usizeSub (vm.pc + 4) (t.toNat * 4) = some (vm.pc + 4 - t.toNat * 4) :=
      usizeSub_of_le _ _ (hub rfl)
    simp [Vm.step, h0, Vm.stepJmpb, Vm.next8, Vm.next16, Vm.readReg,
          h1, h2', h3', hr, hm, e4, hs, show Opcode.fromByte 8 = Opcode.jmpb from rfl]

/-- Witness for the amended C1 at `JMP $0` with `registers[0] = 1`. -/
theorem c1_witness :
    Vm.step jmpEx = some (false,
      { jmpEx with pc :=
          if (6 : Nat) = 6 then (1 : Int).toNat * 4
          else if (6 : Nat) = 7 then jmpEx.pc + 4 + (1 : Int).toNat * 4
          else jmpEx.pc + 4 - (1 : Int).toNat * 4 }) :=
  c1_jump_semantics jmpEx 6 0 0 0 1 (by decide) (by decide) (by decide)
    (by decide) (by decide) (by decide) (by decide) (by decide) (by decide)
    (by decide)

/-- C2 amended: engine byte consumption agrees with `Opcode::size` exactly
for HLT, LOAD, ADD, SUB, MUL and DIV; every other valid opcode consumes 4
bytes (padding reads included) while `encoded_size` reports 2 or 3. -/
theorem c2_consumption_vs_size (op : Opcode) (h : op ≠ Opcode.igl) :
    (some op.vmConsumed = op.size ↔
      op = Opcode.hlt ∨ op = Opcode.load ∨ op = Opcode.add ∨
      op = Opcode.sub ∨ op = Opcode.mul ∨ op = Opcode.div) := by
  cases op <;> first | exact absurd rfl h | decide

/-- Witness for the amended C2 at `Opcode.load`. -/
theorem c2_witness :
    some (Opcode.vmConsumed Opcode.load) = Opcode.size Opcode.load :=
  (c2_consumption_vs_size Opcode.load (by decide)).mpr (by decide)

/-- C3 amended: `LOAD reg, imm` stores the zero-extended 16-bit immediate
(the nonnegative value `b2 * 256 + b3`) into `registers[reg]`; there is no
sign extension. -/
theorem c3_load_zero_extends (vm : Vm) (r b2 b3 : Nat)
    (h0 : vm.program[vm.pc]? = some 1)
    (h1 : vm.program[vm.pc + 1]? = some r)
    (h2 : vm.program[vm.pc + 2]? = some b2)
    (h3 : vm.program[vm.pc + 3]? = some b3)
    (hr : r < vm.registers.length) :
    Vm.step vm = some (false,
      { vm with
          pc := vm.pc + 4
          registers := vm.registers.set r ((b2 * 256 + b3 : Nat) : Int) }) := by
  have h2' : vm.program[vm.pc + 1 + 1]? = some b2 := by
    rw [show vm.pc + 1 + 1 = vm.pc + 2 by omega]; exact h2
  have h3' : vm.program[vm.pc + 1 + 1 + 1]? = some b3 := by
    rw [show vm.pc + 1 + 1 + 1 = vm.pc + 3 by omega]; exact h3
  have e4 : vm.pc + 1 + 1 + 2 = vm.pc + 4 := by omega
  simp [Vm.step, h0, Vm.stepLoad, Vm.next8, Vm.next16, Vm.writeReg,
        h1, h2', h3', hr, e4, show Opcode.fromByte 1 = Opcode.load from rfl]

/-- Witness for the amended C3 at `LOAD $0 0xFFFF`. -/
theorem c3_witness :
    Vm.step loadFFEx = some (false,
      { loadFFEx with
          pc := loadFFEx.pc + 4
          registers := loadFFEx.registers.set 0 ((255 * 256 + 255 : Nat) : Int) }) :=
  c3_load_zero_extends loadFFEx 0 255 255 (by decide) (by decide) (by decide)
    (by decide) (by decide)

/-- C4 amended: the instruction set is the closed 20-variant enumeration
(HLT … DEC plus the `Igl` sentinel) with no JNEQ opcode; the only
comparison-conditional jump is JEQ (opcode 15), which sets
`pc := value(reg) * 4` exactly when the comparison flag equals 1, and
otherwise just advances `pc` past the 4 consumed bytes. -/
theorem c4_enum_closed_and_jeq (b : Nat) (vm : Vm) (r b2 b3 : Nat) (t : Int)
    (h0 : vm.program[vm.pc]? = some 15)
    (h1 : vm.program[vm.pc + 1]? = some r)
    (h2 : vm.program[vm.pc + 2]? = some b2)
    (h3 : vm.program[vm.pc + 3]? = some b3)
    (hr : vm.registers[r]? = some t)
    (ht0 : 0 ≤ t) (ht1 : t < 2 ^ 31) :
    Opcode.fromByte b ∈ opcodeEnum ∧
    Vm.step vm = some (false,
      if vm.cmp = 1 then { vm with pc := t.toNat * 4 }
      else { vm with pc := vm.pc + 4 }) := by
  constructor
  · cases hq : Opcode.fromByte b <;> decide
  · have h2' : vm.program[vm.pc + 1 + 1]? = some b2 := by
      rw [show vm.pc + 1 + 1 = vm.pc + 2 by omega]; exact h2
    have h3' : vm.program[vm.pc + 1 + 1 + 1]? = some b3 := by
      rw [show vm.pc + 1 + 1 + 1 = vm.pc + 3 by omega]; exact h3
    have hm : usizeMul (i32AsUsize t) 4 = some (t.toNat * 4) := by
      rw [i32AsUsize_ofNonneg t ht0 ht1]
      exact usizeMul4_small _ (by omega)
    have e4 : vm.pc + 1 + 1 + 2 = vm.pc + 4 := by omega
    by_cases hcmp : vm.cmp = 1
    · simp [Vm.step, h0, Vm.stepJeq, Vm.next8, Vm.next16, Vm.readReg,
            h1, h2', h3', hr, hm, hcmp,
            show Opcode.fromByte 15 = Opcode.jeq from rfl]
    · simp [Vm.step, h0, Vm.stepJeq, Vm.next8, Vm.next16, Vm.readReg,
            h1, h2', h3', hr, hcmp, e4,
            show Opcode.fromByte 15 = Opcode.jeq from rfl]

/-- Witness for the amended C4 at the gap byte 16 and a taken JEQ with
`registers[0] = 3`, comparison flag 1. -/
theorem c4_witness :
    Opcode.fromByte 16 ∈ opcodeEnum ∧
    Vm.step jeqEx = some (false,
      if jeqEx.cmp = 1 then { jeqEx with pc := (3 : Int).toNat * 4 }
      else { jeqEx with pc := jeqEx.pc + 4 }) :=
  c4_enum_closed_and_jeq 16 jeqEx 0 0 0 3 (by decide) (by decide) (by decide)
    (by decide) (by decide) (by decide) (by decide)

/-- C5 amended: a zero divisor makes `DIV` panic natively (modelled
`none`) — there is no structured DivisionByZero fault value; with a
nonzero divisor (and away from the `i32::MIN / -1` overflow panic) the
destination register receives the truncated signed quotient and `rem`
receives the signed remainder reinterpreted as unsigned 32-bit. -/
theorem c5_div_semantics (vm : Vm) (i j k : Nat) (a b : Int)
    (h0 : vm.program[vm.pc]? = some 5)
    (h1 : vm.program[vm.pc + 1]? = some i)
    (h2 : vm.program[vm.pc + 2]? = some j)
    (h3 : vm.program[vm.pc + 3]? = some k)
    (ha : vm.registers[i]? = some a)
    (hb : vm.registers[j]? = some b)
    (hk : k < vm.registers.length) :
    (b = 0 → Vm.step vm = none) ∧
    (b ≠ 0 → ¬(a = i32Min ∧ b = -1) →
      Vm.step vm = some (false,
        { vm with
            pc := vm.pc + 4
            registers := vm.registers.set k (a.tdiv b)
            rem := i32AsU32 (a.tmod b) })) := by
  have h2' : vm.program[vm.pc + 1 + 1]? = some j := by
    rw [show vm.pc + 1 + 1 = vm.pc + 2 by omega]; exact h2
  have h3' : vm.program[vm.pc + 1 + 1 + 1]? = some k := by
    rw [show vm.pc + 1 + 1 + 1 = vm.pc + 3 by omega]; exact h3
  have e4 : vm.pc + 1 + 1 + 1 + 1 = vm.pc + 4 := by omega
  constructor
  · intro hb0
    subst hb0
    simp [Vm.step, h0, Vm.stepDiv, Vm.next8, Vm.readReg, h1, h2', ha, hb,
          i32div, show Opcode.fromByte 5 = Opcode.div from rfl]
  · intro hb0 hov
    have hdiv : i32div a b = some (a.tdiv b) := by
      unfold i32div
      rw [if_neg (by push_neg; exact ⟨hb0, fun h hh => hov ⟨h, hh⟩⟩)]
    have hmod : i32mod a b = some (a.tmod b) := by
      unfold i32mod
      rw [if_neg (by push_neg; exact ⟨hb0, fun h hh => hov ⟨h, hh⟩⟩)]
    simp [Vm.step, h0, Vm.stepDiv, Vm.next8, Vm.readReg, Vm.writeReg,
          h1, h2', h3', ha, hb, hdiv, hmod, hk, e4,
          show Opcode.fromByte 5 = Opcode.div from rfl]

/-- Witness for the amended C5: `DIV $0 $1 $2` with 11 / 2. -/
theorem c5_witness :
    Vm.step divEx = some (false,
      { divEx with
          pc := divEx.pc + 4
          registers := divEx.registers.set 2 ((11 : Int).tdiv 2)
          rem := i32AsU32 ((11 : Int).tmod 2) }) :=
  (c5_div_semantics divEx 0 1 2 11 2 (by decide) (by decide) (by decide)
    (by decide) (by decide) (by decide) (by decide)).2 (by decide) (by decide)

/-- C9 amended: `ALLOC` with a nonnegative register value `t` (and the
grown heap within `Vec` capacity) appends exactly `t` zero bytes to the
heap, leaving the existing contents untouched; a negative value is a
native panic (see the counterexample), not a defined fault. -/
theorem c9_alloc_semantics (vm : Vm) (r x y : Nat) (t : Int)
    (h0 : vm.program[vm.pc]? = some 17)
    (h1 : vm.program[vm.pc + 1]? = some r)
    (h2 : vm.program[vm.pc + 2]? = some x)
    (h3 : vm.program[vm.pc + 3]? = some y)
    (hr : vm.registers[r]? = some t)
    (ht0 : 0 ≤ t) (ht1 : t < 2 ^ 31)
    (hcap : vm.heap.length + t.toNat ≤ isizeMax) :
    Vm.step vm = some (false,
      { vm with
          pc := vm.pc + 4
          heap := vm.heap ++ List.replicate t.toNat 0 }) := by
  have h2' : vm.program[vm.pc + 1 + 1]? = some x := by
    rw [show vm.pc + 1 + 1 = vm.pc + 2 by omega]; exact h2
  have h3' : vm.program[vm.pc + 1 + 1 + 1]? = some y := by
    rw [show vm.pc + 1 + 1 + 1 = vm.pc + 3 by omega]; exact h3
  have e4 : vm.pc + 1 + 1 + 1 + 1 = vm.pc + 4 := by omega
  have hadd : usizeAdd vm.heap.length (i32AsUsize t) =
      some (vm.heap.length + t.toNat) := by
    rw [i32AsUsize_ofNonneg t ht0 ht1]
    exact usizeAdd_small _ _ (by unfold isizeMax at hcap; omega)
  have hres : vecResize vm.heap (vm.heap.length + t.toNat) =
      some (vm.heap ++ List.replicate t.toNat 0) := by
    unfold vecResize
    rcases Nat.eq_zero_or_pos t.toNat with hz | hz
    · rw [hz]
      simp
    · rw [if_neg (by omega), if_pos hcap]
      simp
  simp [Vm.step, h0, Vm.stepAlloc, Vm.next8, Vm.readReg, h1, h2', h3', hr,
        hadd, hres, e4, show Opcode.fromByte 17 = Opcode.alloc from rfl]

/-- Witness for the amended C9: `ALLOC $0` with `registers[0] = 10`. -/
theorem c9_witness :
    Vm.step allocEx = some (false,
      { allocEx with
          pc := allocEx.pc + 4
          heap := allocEx.heap ++ List.replicate (10 : Int).toNat 0 }) :=
  c9_alloc_semantics allocEx 0 0 0 10 (by decide) (by decide) (by decide)
    (by decide) (by decide) (by decide) (by decide) (by decide)
